import Mathlib

/-!
Shallow embedding of the rh-manager repository's core logic:

* `src/server/routes.ts` — registration sanitizer and the bulk-import handler
  (`POST /api/employees/bulk`);
* `src/server/storage.ts` — the in-memory storage (`MemStorage`) and the
  SQLite storage (`SqliteStorage`), in particular vacation/leave creation with
  the auto-approve rule, the cascading `deleteEmployee`, and `updateVacation`;
* `src/unnamed/part_002` — time arithmetic helpers `minutesToHHMM`,
  `hhmmToMinutes`.

JavaScript strings are modelled as `List Char`; JS numbers as `Int`/`Nat`
(every arithmetic operation exercised here is exact integer arithmetic well
inside the float-exact range, and every division in the source is applied to
non-negative operands, where all rounding conventions agree).
-/

namespace RhManager

/-- The character class `\s` of JavaScript regular expressions (also the set
trimmed by `String.prototype.trim`). -/
def jsWs (c : Char) : Bool :=
  let n := c.toNat
  n == 0x20 || n == 0x09 || n == 0x0a || n == 0x0d || n == 0x0b || n == 0x0c ||
  n == 0xa0 || n == 0x1680 || (0x2000 ≤ n && n ≤ 0x200a) || n == 0x2028 ||
  n == 0x2029 || n == 0x202f || n == 0x205f || n == 0x3000 || n == 0xfeff

/-- JS `String.prototype.trim`: drop `\s` characters from both ends. -/
def trimJS (l : List Char) : List Char :=
  ((l.dropWhile jsWs).reverse.dropWhile jsWs).reverse

/-- Numeric value of a decimal digit character. -/
def digitVal (c : Char) : Nat := c.toNat - 48

/-- Value of a decimal digit string (most significant first). -/
def ofDigits (l : List Char) : Nat :=
  l.foldl (fun a c => a * 10 + digitVal c) 0

/-- Decimal digits of `n`, most significant first, with enough `fuel`
(structural recursion so that the kernel can evaluate it). -/
def natToDigitsAux : Nat → Nat → List Char
  | 0, _ => []
  | fuel + 1, n =>
    if n < 10 then [Nat.digitChar n]
    else natToDigitsAux fuel (n / 10) ++ [Nat.digitChar (n % 10)]

/-- Decimal digit characters of `n`, most significant first: the model of
JS `String(n)` for a non-negative integer. -/
def natToDigits (n : Nat) : List Char := natToDigitsAux (n + 1) n

/-- JS `String.prototype.padStart(2, "0")`. -/
def pad2 (l : List Char) : List Char :=
  if l.length ≥ 2 then l else List.replicate (2 - l.length) '0' ++ l

/-- The regex digit class `[0-9]` (the complement of `\\D`). -/
def isDigitC (c : Char) : Bool := 48 ≤ c.toNat && c.toNat ≤ 57

/-- Value of a hexadecimal digit character. -/
def hexVal (c : Char) : Nat :=
  if '0' ≤ c ∧ c ≤ '9' then c.toNat - 48
  else if 'a' ≤ c ∧ c ≤ 'f' then c.toNat - 87
  else c.toNat - 55

def isHexDigit (c : Char) : Bool :=
  ('0' ≤ c && c ≤ '9') || ('a' ≤ c && c ≤ 'f') || ('A' ≤ c && c ≤ 'F')

def ofHexDigits (l : List Char) : Nat :=
  l.foldl (fun a c => a * 16 + hexVal c) 0

/-- Test for a `0x`/`0X` hexadecimal marker at the head of the digits part
of a JS `parseInt` argument. -/
def hexMarked (l : List Char) : Bool :=
  match l with
  | c0 :: c1 :: _ => c0 == '0' && (c1 == 'x' || c1 == 'X')
  | _ => false

/-- The digits-part of JS `parseInt` (radix unspecified): after the optional
sign, a `0x`/`0X` marker switches to hexadecimal, otherwise the longest
decimal-digit prefix is taken; no digits at all yields `NaN` (`none`). -/
def parseIntAfterSign (l : List Char) : Option Nat :=
  if hexMarked l then
    if ((l.drop 2).takeWhile isHexDigit).isEmpty then none
    else some (ofHexDigits ((l.drop 2).takeWhile isHexDigit))
  else
    if (l.takeWhile isDigitC).isEmpty then none
    else some (ofDigits (l.takeWhile isDigitC))

/-- JS `s.startsWith(c)` for a one-character needle. -/
def startsWithChar (c : Char) (l : List Char) : Bool :=
  match l with
  | x :: _ => x == c
  | [] => false

/-- JS `parseInt(s)`: skip leading whitespace, optional sign, then digits;
`none` models `NaN`. -/
def parseIntJS (l : List Char) : Option Int :=
  if startsWithChar '-' (l.dropWhile jsWs) then
    (parseIntAfterSign (l.dropWhile jsWs).tail).map (fun n => -(n : Int))
  else if startsWithChar '+' (l.dropWhile jsWs) then
    (parseIntAfterSign (l.dropWhile jsWs).tail).map (fun n => (n : Int))
  else (parseIntAfterSign (l.dropWhile jsWs)).map (fun n => (n : Int))

/-- The idiom `parseInt(s) || 0` of the source: `NaN` collapses to `0`. -/
def parseOr0 (l : List Char) : Int := (parseIntJS l).getD 0

/-! ### Registration sanitizer (src/server/routes.ts, lines 70–72)

```ts
const sanitizeRegistration = (reg: string): string => {
  return reg.replace(/[\s.-]/g, '').trim();
};
``` -/

/-- Characters removed by the regex class `[\s.-]`. -/
def isStripped (c : Char) : Bool := jsWs c || c == '.' || c == '-'

def sanitizeChars (l : List Char) : List Char :=
  trimJS (l.filter (fun c => !isStripped c))

def sanitizeRegistration (s : String) : String := ⟨sanitizeChars s.data⟩

/-! ### Time arithmetic (src/unnamed/part_002, lines 393–453)

```ts
function minutesToHHMM(minutes: number): string {
  const hours = Math.floor(Math.abs(minutes) / 60);
  const mins = Math.abs(minutes) % 60;
  const sign = minutes < 0 ? "-" : "";
  return `${sign}${String(hours).padStart(2, "0")}:${String(mins).padStart(2, "0")}`;
}
``` -/

def minutesToHHMMChars (m : Int) : List Char :=
  (if m < 0 then ['-'] else []) ++
    pad2 (natToDigits (m.natAbs / 60)) ++ ':' :: pad2 (natToDigits (m.natAbs % 60))

def minutesToHHMM (m : Int) : String := ⟨minutesToHHMMChars m⟩

/-- The negativity test of `hhmmToMinutes`:
`hhmmStr.startsWith("-") || hhmmStr.startsWith("+") && hhmmStr.length > 1 && hhmmStr[0] === "-"`
(JS `&&` binds tighter than `||`). -/
def hhmmIsNegative (l : List Char) : Bool :=
  startsWithChar '-' l ||
    (startsWithChar '+' l && decide (l.length > 1) && l.head? == some '-')

/-- JS `hhmmStr.replace(/^[+-]/, "")`: drop one leading sign character. -/
def stripLeadingSign (l : List Char) : List Char :=
  match l with
  | c :: rest => if c = '-' ∨ c = '+' then rest else c :: rest
  | [] => []

/-- JS `s.split(":")`. -/
def splitOnColon (l : List Char) : List (List Char) :=
  match l with
  | [] => [[]]
  | c :: rest =>
    if c = ':' then [] :: splitOnColon rest
     else
      match splitOnColon rest with
      | [] => [[c]]
      | p :: ps => (c :: p) :: ps

/-- The colonless branch of `hhmmToMinutes` (lines 416–443): positional
interpretation of the extracted digit characters. -/
def hhmmNoColonPair (digits : List Char) : Int × Int :=
  if digits.length = 4 then (parseOr0 (digits.take 2), parseOr0 (digits.drop 2))
  else if digits.length = 3 then (parseOr0 (digits.take 1), parseOr0 (digits.drop 1))
  else if digits.length = 2 then (0, parseOr0 digits)
  else if digits.length > 0 then
    if parseOr0 digits > 60 then (parseOr0 digits / 100, parseOr0 digits % 100)
    else (0, parseOr0 digits)
  else (0, 0)

/-- The `(hours, mins)` pair computed by the body of `hhmmToMinutes` before
the `mins >= 60` carry.  `clean` is the sign-stripped, trimmed input. -/
def hhmmRawPair (clean : List Char) : Int × Int :=
  if ':' ∈ clean then
    match splitOnColon clean with
    | [a, b] => (parseOr0 a, parseOr0 b)
    | _ => (0, 0)
  else hhmmNoColonPair (clean.filter isDigitC)

/-- The carry normalisation of `hhmmToMinutes` (lines 446–449): minutes of
60 or more spill into the hours. -/
def hhmmCarry (p : Int × Int) : Int × Int :=
  if p.2 ≥ 60 then (p.1 + p.2 / 60, p.2 % 60) else p

/-- The unsigned total `hours * 60 + mins` of `hhmmToMinutes` (line 451)
computed from the sign-stripped, trimmed input. -/
def hhmmTotal (clean : List Char) : Int :=
  (hhmmCarry (hhmmRawPair clean)).1 * 60 + (hhmmCarry (hhmmRawPair clean)).2

/-- Body of `hhmmToMinutes` on the character list (src/unnamed/part_002, 400–453). -/
def hhmmToMinutesChars (l : List Char) : Int :=
  if l = [] then 0
  else if hhmmIsNegative l then -hhmmTotal (trimJS (stripLeadingSign l))
  else hhmmTotal (trimJS (stripLeadingSign l))

def hhmmToMinutes (s : String) : Int := hhmmToMinutesChars s.data

/-- Transcribed from the claim C7 / spec section 4.3 wording: carry minute
overflow into hours so that the final minute component lies in `[0, 60)`. -/
def specCarry (h m : Nat) : Nat × Nat :=
  if m ≥ 60 then (h + m / 60, m % 60) else (h, m)

/-- Transcribed from the claim's wording: combine hours and minutes into the
total after normalising the minute component. -/
def specCombine (h m : Nat) : Nat :=
  (specCarry h m).1 * 60 + (specCarry h m).2

/-- Transcribed from the claim C7 wording: interpret the digit string
positionally — 4 digits as HHMM, 3 digits as HMM, 2 digits or fewer as MM,
except that a numeric value exceeding 60 is treated as an unseparated HHMM
pair (divmod by 100) rather than raw minutes. -/
def specPositionalInterp (digits : List Char) : Nat :=
  if digits.length = 4 then
    specCombine (ofDigits (digits.take 2)) (ofDigits (digits.drop 2))
  else if digits.length = 3 then
    specCombine (ofDigits (digits.take 1)) (ofDigits (digits.drop 1))
  else
    if ofDigits digits > 60 then
      specCombine (ofDigits digits / 100) (ofDigits digits % 100)
    else specCombine 0 (ofDigits digits)

/-! ### Data model (src/server/storage.ts)

Dates (`startDate`, `endDate`, `today`) are modelled as `Int` day numbers:
the code parses the stored ISO string with `new Date(...)` and truncates the
time with `setHours(0,0,0,0)`; the day number stands for that truncated date,
and `≤` on day numbers models `<=` on truncated `Date`s. -/

structure Employee where
  id : String
  fullName : String
  registrationNumber : String
  position : String
  deriving DecidableEq, Repr

structure HoursBank where
  id : String
  employeeId : String
  month : Int
  year : Int
  hours : Int
  description : Option String
  deriving DecidableEq, Repr

structure VacationPeriod where
  id : String
  employeeId : String
  startDate : Int
  endDate : Int
  status : String
  notes : Option String
  deriving DecidableEq, Repr

/-- Model of `InsertVacation` / `InsertLeave`: the record without the generated id
(vacations and leaves are structurally identical in the schema). -/
structure InsertVacation where
  employeeId : String
  startDate : Int
  endDate : Int
  status : String
  notes : Option String
  deriving DecidableEq, Repr

structure PaidDayOff where
  id : String
  employeeId : String
  date : Int
  hours : Int
  year : Int
  initialHours : Option Int
  deriving DecidableEq, Repr

/-! JS `Map<string, V>` is modelled as an association list with unique keys
(unique by construction in the source: keys are fresh UUIDs).  `Map.get` is
the first-match lookup, `Map.set` replaces the entry at the key or appends,
`Map.delete` removes the entry and reports whether it was present. -/

def lookupA (k : String) : List (String × α) → Option α
  | [] => none
  | p :: rest => if p.1 = k then some p.2 else lookupA k rest

def containsA (k : String) : List (String × α) → Bool
  | [] => false
  | p :: rest => p.1 == k || containsA k rest

def setA (k : String) (v : α) (m : List (String × α)) : List (String × α) :=
  if containsA k m then m.map (fun p => if p.1 = k then (k, v) else p)
  else m ++ [(k, v)]

def deleteA (k : String) (m : List (String × α)) : List (String × α) :=
  m.filter (fun p => p.1 ≠ k)

/-- The private maps of `MemStorage` (storage.ts, lines 482–497); the `users`
map plays no role in the claims. -/
structure MemState where
  employees : List (String × Employee)
  hoursBank : List (String × HoursBank)
  vacations : List (String × VacationPeriod)
  leaves : List (String × VacationPeriod)
  paidDaysOff : List (String × PaidDayOff)
  deriving DecidableEq, Repr

/-- The status stored by `MemStorage.createVacation` / `createLeave`
(storage.ts 596–608 and 633–645): auto-approve when the truncated start date
is on or before the truncated current date. -/
def memCreateStatus (today : Int) (v : InsertVacation) : String :=
  if v.startDate ≤ today then "approved" else v.status

/-- Model of `MemStorage.createVacation` (storage.ts 596–608); `id` models the fresh
`randomUUID()`.  Returns the created record and the new state. -/
def memCreateVacation (today : Int) (id : String) (v : InsertVacation)
    (st : MemState) : VacationPeriod × MemState :=
  let vacation : VacationPeriod :=
    { id := id, employeeId := v.employeeId, startDate := v.startDate,
      endDate := v.endDate, status := memCreateStatus today v, notes := v.notes }
  (vacation, { st with vacations := setA id vacation st.vacations })

/-- Model of `MemStorage.createLeave` (storage.ts 633–645): same logic on the
`leaves` map. -/
def memCreateLeave (today : Int) (id : String) (v : InsertVacation)
    (st : MemState) : VacationPeriod × MemState :=
  let leave : VacationPeriod :=
    { id := id, employeeId := v.employeeId, startDate := v.startDate,
      endDate := v.endDate, status := memCreateStatus today v, notes := v.notes }
  (leave, { st with leaves := setA id leave st.leaves })

/-- Model of `SqliteStorage.createVacation` (storage.ts 284–298): the submitted row is
inserted unchanged; the returned record is `{ id, ...vacation }`.  The same
holds for `SqliteStorage.createLeave` (347–355). -/
def sqliteCreateVacation (id : String) (v : InsertVacation) : VacationPeriod :=
  { id := id, employeeId := v.employeeId, startDate := v.startDate,
    endDate := v.endDate, status := v.status, notes := v.notes }

/-- Model of `SqliteStorage.createLeave` (storage.ts 347–355): like
`SqliteStorage.createVacation`, the submitted status is stored unchanged. -/
def sqliteCreateLeave (id : String) (v : InsertVacation) : VacationPeriod :=
  { id := id, employeeId := v.employeeId, startDate := v.startDate,
    endDate := v.endDate, status := v.status, notes := v.notes }

/-- Model of `MemStorage.deleteEmployee` (storage.ts 546–563): delete the employee and,
when it existed, every dependent record whose `employeeId` matches. -/
def memDeleteEmployee (id : String) (st : MemState) : Bool × MemState :=
  let deleted := containsA id st.employees
  if deleted then
    (true,
      { employees := deleteA id st.employees,
        hoursBank := st.hoursBank.filter (fun p => p.2.employeeId ≠ id),
        vacations := st.vacations.filter (fun p => p.2.employeeId ≠ id),
        leaves := st.leaves.filter (fun p => p.2.employeeId ≠ id),
        paidDaysOff := st.paidDaysOff.filter (fun p => p.2.employeeId ≠ id) })
  else (false, st)

def memGetEmployee (id : String) (st : MemState) : Option Employee :=
  lookupA id st.employees

def memGetHoursBankByEmployee (employeeId : String) (st : MemState) :
    List HoursBank :=
  (st.hoursBank.map (·.2)).filter (fun h => h.employeeId == employeeId)

def memGetVacationsByEmployee (employeeId : String) (st : MemState) :
    List VacationPeriod :=
  (st.vacations.map (·.2)).filter (fun v => v.employeeId == employeeId)

def memGetLeavesByEmployee (employeeId : String) (st : MemState) :
    List VacationPeriod :=
  (st.leaves.map (·.2)).filter (fun l => l.employeeId == employeeId)

def memGetPaidDaysOffByEmployee (employeeId : String) (st : MemState) :
    List PaidDayOff :=
  (st.paidDaysOff.map (·.2)).filter (fun d => d.employeeId == employeeId)

/-- Model of `Partial<InsertVacation>`: each field optionally present.  A JS object
spread `{ ...vacation, ...data }` overwrites exactly the fields present in
`data`; `id` is not part of `InsertVacation`, so it can never be patched. -/
structure VacationPatch where
  employeeId : Option String := none
  startDate : Option Int := none
  endDate : Option Int := none
  status : Option String := none
  notes : Option (Option String) := none
  deriving DecidableEq, Repr

def applyPatch (v : VacationPeriod) (d : VacationPatch) : VacationPeriod :=
  { id := v.id,
    employeeId := d.employeeId.getD v.employeeId,
    startDate := d.startDate.getD v.startDate,
    endDate := d.endDate.getD v.endDate,
    status := d.status.getD v.status,
    notes := d.notes.getD v.notes }

/-- Model of `MemStorage.updateVacation` (storage.ts 610–617): look up, merge the
patch over the existing record, store it back under the same id. -/
def memUpdateVacation (id : String) (d : VacationPatch) (st : MemState) :
    Option VacationPeriod × MemState :=
  match lookupA id st.vacations with
  | none => (none, st)
  | some v =>
    let updated := applyPatch v d
    (some updated, { st with vacations := setA id updated st.vacations })

/-! ### Bulk import (src/server/routes.ts, POST /api/employees/bulk, 61–142)

The handler walks `rows` in order with index `i`, keeping the set of known
sanitized registrations (seeded from the pre-existing employees), the created
count, and the ordered `duplicates` report.  `storage.createEmployee` is
`await`ed inside a per-row `try`; whether the call throws for row `i` is
modelled by the oracle `fail : Nat → Bool`. -/

structure BulkRow where
  fullName : String
  registrationNumber : String
  position : String
  deriving DecidableEq, Repr

structure DupEntry where
  row : Nat
  fullName : String
  registrationNumber : String
  reason : String
  deriving DecidableEq, Repr

structure BulkState where
  known : List String
  created : Nat
  duplicates : List DupEntry
  deriving DecidableEq, Repr

structure BulkReport where
  totalRows : Nat
  created : Nat
  duplicates : List DupEntry
  deriving DecidableEq, Repr

/-- One iteration of the `for` loop (routes.ts 89–132) on row `r` at index
`i` (0-based; reported row numbers are `i + 1`).  JS truthiness of the field
check `!fullName || !registrationNumber || !position` is emptiness of the
string. -/
def bulkStep (fail : Nat → Bool) (i : Nat) (s : BulkState) (r : BulkRow) :
    BulkState :=
  if r.fullName = "" ∨ r.registrationNumber = "" ∨ r.position = "" then
    { s with duplicates := s.duplicates ++
        [{ row := i + 1,
           fullName := if r.fullName = "" then "Desconhecido" else r.fullName,
           registrationNumber :=
             if r.registrationNumber = "" then "Vazio" else r.registrationNumber,
           reason := "Dados incompletos" }] }
  else
    if sanitizeRegistration r.registrationNumber ∈ s.known then
      { s with duplicates := s.duplicates ++
          [{ row := i + 1, fullName := r.fullName,
             registrationNumber := r.registrationNumber,
             reason := "Matrícula já existe" }] }
    else if fail i then
      { s with duplicates := s.duplicates ++
          [{ row := i + 1, fullName := r.fullName,
             registrationNumber := r.registrationNumber,
             reason := "Erro ao criar" }] }
    else
      { s with known := sanitizeRegistration r.registrationNumber :: s.known,
               created := s.created + 1 }

/-- The loop of the bulk handler from index `i` and state `s`. -/
def bulkRun (fail : Nat → Bool) : Nat → BulkState → List BulkRow → BulkState
  | _, s, [] => s
  | i, s, r :: rest => bulkRun fail (i + 1) (bulkStep fail i s r) rest

/-- The whole handler: seed the known set with the sanitized registrations of
the pre-existing employees, run the loop, return the report. -/
def importBulk (existing : List Employee) (fail : Nat → Bool)
    (rows : List BulkRow) : BulkReport :=
  let s := bulkRun fail 0
    { known := existing.map (fun e => sanitizeRegistration e.registrationNumber),
      created := 0, duplicates := [] } rows
  { totalRows := rows.length, created := s.created, duplicates := s.duplicates }

/-! ### Concrete records used by the witnesses -/

def insPending : InsertVacation :=
  { employeeId := "e1", startDate := 0, endDate := 1,
    status := "pending", notes := none }

def emptyMem : MemState :=
  { employees := [], hoursBank := [], vacations := [], leaves := [],
    paidDaysOff := [] }

def insFuture : InsertVacation :=
  { employeeId := "e1", startDate := 1, endDate := 2,
    status := "pending", notes := none }

def vacW : VacationPeriod :=
  { id := "v1", employeeId := "e1", startDate := 0, endDate := 1,
    status := "pending", notes := none }

def stW : MemState :=
  { employees := [], hoursBank := [], vacations := [("v1", vacW)],
    leaves := [], paidDaysOff := [] }

def empW : Employee :=
  { id := "e1", fullName := "A", registrationNumber := "11122",
    position := "Dev" }

def hbW : HoursBank :=
  { id := "h1", employeeId := "e1", month := 1, year := 2024, hours := 480,
    description := none }

def pdoW : PaidDayOff :=
  { id := "p1", employeeId := "e1", date := 0, hours := 60, year := 2024,
    initialHours := none }

def stDel : MemState :=
  { employees := [("e1", empW)],
    hoursBank := [("h1", hbW)],
    vacations := [("v1", vacW)],
    leaves := [("l1", { vacW with id := "l1" })],
    paidDaysOff := [("p1", pdoW)] }

/-! ## Sanity checks -/

example : hhmmToMinutes "03:15" = 195 := by decide
example : hhmmToMinutes "-01:30" = -90 := by decide
example : hhmmToMinutes "0315" = 195 := by decide
example : hhmmToMinutes "315" = 195 := by decide
example : hhmmToMinutes "15" = 15 := by decide
example : hhmmToMinutes "99" = 99 := by decide
example : hhmmToMinutes "" = 0 := by decide
example : hhmmToMinutes "01:75" = 135 := by decide
example : minutesToHHMM 195 = "03:15" := by decide
example : minutesToHHMM (-90) = "-01:30" := by decide
example : minutesToHHMM 0 = "00:00" := by decide
example : hhmmToMinutes (minutesToHHMM 6000) = 6000 := by decide
example : sanitizeRegistration "111-22" = "11122" := by decide
example : sanitizeRegistration " 1.2-3 " = "123" := by decide

example :
    importBulk [] (fun _ => false)
      [⟨"A", "111-22", "Dev"⟩, ⟨"B", "11122", "QA"⟩] =
    { totalRows := 2, created := 1,
      duplicates := [⟨2, "B", "11122", "Matrícula já existe"⟩] } := by decide

/-! ## Helper lemmas -/

theorem dropWhile_eq_self_of (p : Char → Bool) (l : List Char)
    (h : ∀ c ∈ l, p c = false) : l.dropWhile p = l := by
  cases l with
  | nil => rfl
  | cons c rest =>
    rw [List.dropWhile_cons]
    simp [h c (List.mem_cons_self c rest)]

theorem trimJS_eq_self (l : List Char) (h : ∀ c ∈ l, jsWs c = false) :
    trimJS l = l := by
  unfold trimJS
  rw [dropWhile_eq_self_of _ _ h, dropWhile_eq_self_of, List.reverse_reverse]
  intro c hc
  exact h c (List.mem_reverse.mp hc)

theorem mem_of_mem_trimJS {c : Char} {l : List Char} (h : c ∈ trimJS l) :
    c ∈ l := by
  unfold trimJS at h
  rw [List.mem_reverse] at h
  have h2 := (List.dropWhile_sublist jsWs).mem h
  rw [List.mem_reverse] at h2
  exact (List.dropWhile_sublist jsWs).mem h2

theorem sanitizeChars_eq_filter (l : List Char) :
    sanitizeChars l = l.filter (fun c => !isStripped c) := by
  unfold sanitizeChars
  apply trimJS_eq_self
  intro c hc
  have := (List.mem_filter.mp hc).2
  unfold isStripped at this
  cases hws : jsWs c with
  | false => rfl
  | true => simp [hws] at this

theorem lookupA_map_set_self {α : Type} (k : String) (v : α)
    (m : List (String × α)) (hc : containsA k m = true) :
    lookupA k (m.map (fun p => if p.1 = k then (k, v) else p)) = some v := by
  induction m with
  | nil => simp [containsA] at hc
  | cons p rest ih =>
    by_cases hp : p.1 = k
    · simp [lookupA, hp]
    · have hrest : containsA k rest = true := by
        unfold containsA at hc
        rcases Bool.or_eq_true_iff.mp hc with h | h
        · exact absurd (by simpa using h) hp
        · exact h
      simp only [List.map_cons, if_neg hp]
      unfold lookupA
      simp only [if_neg hp]
      exact ih hrest

theorem lookupA_of_not_contains {α : Type} (k : String)
    (m : List (String × α)) (hc : containsA k m = false) :
    lookupA k m = none := by
  induction m with
  | nil => rfl
  | cons p rest ih =>
    unfold containsA at hc
    rcases Bool.or_eq_false_iff.mp hc with ⟨h1, h2⟩
    unfold lookupA
    rw [if_neg (by simpa using h1)]
    exact ih h2

theorem lookupA_append_single {α : Type} (k : String) (v : α)
    (m : List (String × α)) (hn : lookupA k m = none) :
    lookupA k (m ++ [(k, v)]) = some v := by
  induction m with
  | nil => simp [lookupA]
  | cons p rest ih =>
    simp only [lookupA] at hn
    by_cases hp : p.1 = k
    · rw [if_pos hp] at hn
      exact absurd hn (by simp)
    · rw [if_neg hp] at hn
      simp only [List.cons_append, lookupA, if_neg hp]
      exact ih hn

theorem lookupA_setA_self {α : Type} (k : String) (v : α)
    (m : List (String × α)) : lookupA k (setA k v m) = some v := by
  unfold setA
  cases hc : containsA k m with
  | true => simpa using lookupA_map_set_self k v m hc
  | false =>
    simp only [hc, Bool.false_eq_true, if_false]
    exact lookupA_append_single k v m (lookupA_of_not_contains k m hc)

theorem lookupA_map_set_ne {α : Type} (k k' : String) (v : α)
    (m : List (String × α)) (h : k' ≠ k) :
    lookupA k' (m.map (fun p => if p.1 = k then (k, v) else p)) =
      lookupA k' m := by
  induction m with
  | nil => rfl
  | cons p rest ih =>
    by_cases hp : p.1 = k
    · simp only [List.map_cons, if_pos hp]
      unfold lookupA
      rw [if_neg (Ne.symm h), if_neg (by rw [hp]; exact fun hh => h hh.symm)]
      exact ih
    · simp only [List.map_cons, if_neg hp]
      unfold lookupA
      by_cases hpk : p.1 = k'
      · rw [if_pos hpk, if_pos hpk]
      · rw [if_neg hpk, if_neg hpk]
        exact ih

theorem lookupA_append_single_ne {α : Type} (k k' : String) (v : α)
    (m : List (String × α)) (h : k' ≠ k) :
    lookupA k' (m ++ [(k, v)]) = lookupA k' m := by
  induction m with
  | nil => simp [lookupA, Ne.symm h]
  | cons p rest ih =>
    simp only [List.cons_append, lookupA]
    by_cases hp : p.1 = k'
    · rw [if_pos hp, if_pos hp]
    · rw [if_neg hp, if_neg hp]
      exact ih

theorem lookupA_setA_ne {α : Type} (k k' : String) (v : α)
    (m : List (String × α)) (h : k' ≠ k) :
    lookupA k' (setA k v m) = lookupA k' m := by
  unfold setA
  cases hc : containsA k m with
  | true => simpa using lookupA_map_set_ne k k' v m h
  | false =>
    simp only [hc, Bool.false_eq_true, if_false]
    exact lookupA_append_single_ne k k' v m h

theorem lookupA_deleteA {α : Type} (k : String) (m : List (String × α)) :
    lookupA k (deleteA k m) = none := by
  induction m with
  | nil => rfl
  | cons p rest ih =>
    unfold deleteA at ih ⊢
    by_cases hp : p.1 = k
    · rw [List.filter_cons_of_neg (by simp [hp])]
      exact ih
    · rw [List.filter_cons_of_pos (by simp [hp])]
      simp only [lookupA, if_neg hp]
      exact ih

theorem filter_map_filtered {β : Type} (emp : β → String) (id : String)
    (l : List (String × β)) :
    ((l.filter (fun p => emp p.2 ≠ id)).map (fun p => p.2)).filter
      (fun h => emp h == id) = [] := by
  rw [List.filter_eq_nil_iff]
  intro a ha
  rcases List.mem_map.mp ha with ⟨p, hp, rfl⟩
  have h2 := (List.mem_filter.mp hp).2
  simp only [decide_eq_true_eq] at h2
  simp [h2]

theorem isDigitC_toNat {c : Char} (h : isDigitC c = true) :
    48 ≤ c.toNat ∧ c.toNat ≤ 57 := by
  unfold isDigitC at h
  rcases Bool.and_eq_true_iff.mp h with ⟨h1, h2⟩
  exact ⟨by simpa using h1, by simpa using h2⟩

theorem digit_not_ws {c : Char} (h : isDigitC c = true) : jsWs c = false := by
  have hb := isDigitC_toNat h
  unfold jsWs
  simp only [Bool.or_eq_false_iff, beq_eq_false_iff_ne, ne_eq,
    Bool.and_eq_false_iff, decide_eq_true_eq, not_le, decide_eq_false_iff_not]
  omega

theorem digit_ne_of_toNat {c : Char} (h : isDigitC c = true) (d : Char)
    (hd : ¬ (48 ≤ d.toNat ∧ d.toNat ≤ 57)) : c ≠ d := by
  intro he
  exact hd (he ▸ isDigitC_toNat h)

theorem ofDigits_append_singleton (l : List Char) (c : Char) :
    ofDigits (l ++ [c]) = ofDigits l * 10 + digitVal c := by
  simp [ofDigits, List.foldl_append]

theorem ofDigits_replicate_zero (k : Nat) (l : List Char) :
    ofDigits (List.replicate k '0' ++ l) = ofDigits l := by
  induction k with
  | zero => simp
  | succ k ih =>
    rw [List.replicate_succ, List.cons_append]
    show ofDigits (List.replicate k '0' ++ l) = _
    exact ih

theorem digitChar_spec (m : Nat) (hm : m < 10) :
    digitVal (Nat.digitChar m) = m ∧ isDigitC (Nat.digitChar m) = true := by
  interval_cases m <;> exact ⟨by decide, by decide⟩

theorem natToDigitsAux_spec :
    ∀ (fuel n : Nat), n < fuel →
    (∀ c ∈ natToDigitsAux fuel n, isDigitC c = true) ∧
    ofDigits (natToDigitsAux fuel n) = n ∧ natToDigitsAux fuel n ≠ [] := by
  intro fuel
  induction fuel with
  | zero => intro n h; omega
  | succ fuel ih =>
    intro n h
    have heq : natToDigitsAux (fuel + 1) n =
        (if n < 10 then [Nat.digitChar n]
         else natToDigitsAux fuel (n / 10) ++ [Nat.digitChar (n % 10)]) := rfl
    rw [heq]
    by_cases h10 : n < 10
    · rw [if_pos h10]
      refine ⟨?_, ?_, by simp⟩
      · intro c hc
        rw [List.mem_singleton] at hc
        subst hc
        exact (digitChar_spec n h10).2
      · show 0 * 10 + digitVal (Nat.digitChar n) = n
        rw [(digitChar_spec n h10).1]
        omega
    · rw [if_neg h10]
      have hrec := ih (n / 10) (by omega)
      have hd := digitChar_spec (n % 10) (by omega)
      refine ⟨?_, ?_, by simp⟩
      · intro c hc
        rcases List.mem_append.mp hc with h1 | h1
        · exact hrec.1 c h1
        · rw [List.mem_singleton] at h1
          subst h1
          exact hd.2
      · rw [ofDigits_append_singleton, hrec.2.1, hd.1]
        omega

theorem natToDigits_spec (n : Nat) :
    (∀ c ∈ natToDigits n, isDigitC c = true) ∧
    ofDigits (natToDigits n) = n ∧ natToDigits n ≠ [] :=
  natToDigitsAux_spec (n + 1) n (by omega)

theorem pad2_digits {l : List Char} (h : ∀ c ∈ l, isDigitC c = true) :
    ∀ c ∈ pad2 l, isDigitC c = true := by
  intro c hc
  unfold pad2 at hc
  by_cases hl : l.length ≥ 2
  · exact h c (by rwa [if_pos hl] at hc)
  · rw [if_neg hl] at hc
    rcases List.mem_append.mp hc with h1 | h1
    · rw [List.eq_of_mem_replicate h1]
      decide
    · exact h c h1

theorem pad2_ofDigits (l : List Char) : ofDigits (pad2 l) = ofDigits l := by
  unfold pad2
  by_cases hl : l.length ≥ 2
  · rw [if_pos hl]
  · rw [if_neg hl]
    exact ofDigits_replicate_zero _ l

theorem pad2_ne_nil {l : List Char} (h : l ≠ []) : pad2 l ≠ [] := by
  unfold pad2
  by_cases hl : l.length ≥ 2
  · rwa [if_pos hl]
  · rw [if_neg hl]
    simp [h]

theorem takeWhile_digits {l : List Char} (h : ∀ c ∈ l, isDigitC c = true) :
    l.takeWhile isDigitC = l :=
  List.takeWhile_eq_self_iff.mpr h

theorem hexMarked_digits {l : List Char}
    (hd : ∀ c ∈ l, isDigitC c = true) : hexMarked l = false := by
  rcases l with _ | ⟨c0, _ | ⟨c1, rest⟩⟩
  · rfl
  · rfl
  · have h1 := hd c1 (by simp)
    have hx : c1 ≠ 'x' := digit_ne_of_toNat h1 'x' (by decide)
    have hX : c1 ≠ 'X' := digit_ne_of_toNat h1 'X' (by decide)
    show (c0 == '0' && (c1 == 'x' || c1 == 'X')) = false
    simp [hx, hX]

theorem parseIntAfterSign_digits (l : List Char)
    (hd : ∀ c ∈ l, isDigitC c = true) (hne : l ≠ []) :
    parseIntAfterSign l = some (ofDigits l) := by
  unfold parseIntAfterSign
  rw [hexMarked_digits hd]
  rw [takeWhile_digits hd]
  simp [List.isEmpty_iff, hne]

theorem parseOr0_digits (l : List Char) (hd : ∀ c ∈ l, isDigitC c = true)
    (hne : l ≠ []) : parseOr0 l = (ofDigits l : Int) := by
  have hdw : l.dropWhile jsWs = l :=
    dropWhile_eq_self_of jsWs l (fun c hc => digit_not_ws (hd c hc))
  rcases l with _ | ⟨c, rest⟩
  · exact absurd rfl hne
  have hc := hd c (by simp)
  have hcm : c ≠ '-' := digit_ne_of_toNat hc '-' (by decide)
  have hcp : c ≠ '+' := digit_ne_of_toNat hc '+' (by decide)
  unfold parseOr0 parseIntJS
  rw [hdw]
  rw [if_neg (by simp [startsWithChar, hcm]), if_neg (by simp [startsWithChar, hcp])]
  rw [parseIntAfterSign_digits (c :: rest) hd hne]
  rfl

theorem splitOnColon_no_colon {l : List Char} (h : ':' ∉ l) :
    splitOnColon l = [l] := by
  induction l with
  | nil => rfl
  | cons c rest ih =>
    have hc : c ≠ ':' := fun he => h (he ▸ List.mem_cons_self c rest)
    have hr : ':' ∉ rest := fun hm => h (List.mem_cons_of_mem c hm)
    show splitOnColon (c :: rest) = _
    conv_lhs => unfold splitOnColon
    rw [if_neg hc]
    rw [ih hr]

theorem splitOnColon_append {a : List Char} (b : List Char) (h : ':' ∉ a) :
    splitOnColon (a ++ ':' :: b) = a :: splitOnColon b := by
  induction a with
  | nil =>
    show splitOnColon (':' :: b) = _
    conv_lhs => unfold splitOnColon
    rw [if_pos rfl]
  | cons c a' ih =>
    have hc : c ≠ ':' := fun he => h (he ▸ List.mem_cons_self c a')
    have ha : ':' ∉ a' := fun hm => h (List.mem_cons_of_mem c hm)
    show splitOnColon (c :: (a' ++ ':' :: b)) = _
    conv_lhs => unfold splitOnColon
    rw [if_neg hc, ih ha]

theorem colon_not_mem_digits {l : List Char}
    (hd : ∀ c ∈ l, isDigitC c = true) : ':' ∉ l :=
  fun hc => absurd (hd ':' hc) (by decide)

theorem rawPair_colon (hl ml : List Char)
    (hdl : ∀ c ∈ hl, isDigitC c = true) (hdm : ∀ c ∈ ml, isDigitC c = true)
    (hnl : hl ≠ []) (hnm : ml ≠ []) :
    hhmmRawPair (hl ++ ':' :: ml) = ((ofDigits hl : Int), (ofDigits ml : Int)) := by
  unfold hhmmRawPair
  rw [if_pos (by simp)]
  rw [splitOnColon_append ml (colon_not_mem_digits hdl),
      splitOnColon_no_colon (colon_not_mem_digits hdm)]
  show (parseOr0 hl, parseOr0 ml) = _
  rw [parseOr0_digits hl hdl hnl, parseOr0_digits ml hdm hnm]

theorem hhmmTotal_colon (hl ml : List Char)
    (hdl : ∀ c ∈ hl, isDigitC c = true) (hdm : ∀ c ∈ ml, isDigitC c = true)
    (hnl : hl ≠ []) (hnm : ml ≠ []) (hmlt : ofDigits ml < 60) :
    hhmmTotal (hl ++ ':' :: ml) =
      (ofDigits hl : Int) * 60 + (ofDigits ml : Int) := by
  unfold hhmmTotal
  rw [rawPair_colon hl ml hdl hdm hnl hnm]
  unfold hhmmCarry
  rw [if_neg (by simp; omega)]

theorem trimJS_hhmm (hl ml : List Char)
    (hdl : ∀ c ∈ hl, isDigitC c = true) (hdm : ∀ c ∈ ml, isDigitC c = true) :
    trimJS (hl ++ ':' :: ml) = hl ++ ':' :: ml := by
  apply trimJS_eq_self
  intro c hc
  rcases List.mem_append.mp hc with h | h
  · exact digit_not_ws (hdl c h)
  · rcases List.mem_cons.mp h with rfl | h
    · decide
    · exact digit_not_ws (hdm c h)

theorem digitVal_le_9 {c : Char} (h : isDigitC c = true) : digitVal c ≤ 9 := by
  have := isDigitC_toNat h
  unfold digitVal
  omega

theorem ofDigits_short_lt_100 {l : List Char}
    (hd : ∀ c ∈ l, isDigitC c = true) (hlen : l.length ≤ 2) :
    ofDigits l < 100 := by
  rcases l with _ | ⟨a, _ | ⟨b, _ | _⟩⟩
  · exact (by decide : ofDigits [] < 100)
  · have := digitVal_le_9 (hd a (by simp))
    show 0 * 10 + digitVal a < 100
    omega
  · have ha := digitVal_le_9 (hd a (by simp))
    have hb := digitVal_le_9 (hd b (by simp))
    show (0 * 10 + digitVal a) * 10 + digitVal b < 100
    omega
  · simp at hlen

theorem ofDigits_single_le_9 {l : List Char}
    (hd : ∀ c ∈ l, isDigitC c = true) (hlen : l.length = 1) :
    ofDigits l ≤ 9 := by
  rcases l with _ | ⟨a, _ | _⟩
  · simp at hlen
  · have := digitVal_le_9 (hd a (by simp))
    show 0 * 10 + digitVal a ≤ 9
    omega
  · simp at hlen

theorem specCombine_eq (h m : Nat) : specCombine h m = h * 60 + m := by
  unfold specCombine specCarry
  split_ifs with hc
  · simp only []
    omega
  · rfl

theorem carry_total_cast (hn mn : Nat) :
    (hhmmCarry ((hn : Int), (mn : Int))).1 * 60 +
      (hhmmCarry ((hn : Int), (mn : Int))).2 =
    ((specCombine hn mn : Nat) : Int) := by
  rw [specCombine_eq]
  unfold hhmmCarry
  split_ifs with hc
  · simp only []
    push_cast
    omega
  · push_cast
    omega

theorem filter_dropWhile_excl {p q : Char → Bool}
    (hpq : ∀ c, p c = true → q c = false) :
    ∀ l : List Char, (l.dropWhile p).filter q = l.filter q := by
  intro l
  induction l with
  | nil => rfl
  | cons c rest ih =>
    by_cases hp : p c = true
    · rw [List.dropWhile_cons_of_pos hp, List.filter_cons_of_neg (by simp [hpq c hp])]
      exact ih
    · rw [List.dropWhile_cons_of_neg hp]

theorem trimJS_filter_digits (l : List Char) :
    (trimJS l).filter isDigitC = l.filter isDigitC := by
  have hpq : ∀ c, jsWs c = true → isDigitC c = false := by
    intro c hc
    cases hdc : isDigitC c with
    | false => rfl
    | true => rw [digit_not_ws hdc] at hc; exact absurd hc (by simp)
  unfold trimJS
  rw [List.filter_reverse, filter_dropWhile_excl hpq, List.filter_reverse,
    List.reverse_reverse, filter_dropWhile_excl hpq]

theorem strip_filter_digits (l : List Char) :
    (stripLeadingSign l).filter isDigitC = l.filter isDigitC := by
  rcases l with _ | ⟨c, rest⟩
  · rfl
  · show (if c = '-' ∨ c = '+' then rest
      else c :: rest).filter isDigitC = _
    split_ifs with hs
    · rw [List.filter_cons_of_neg]
      rcases hs with rfl | rfl <;> decide
    · rfl

theorem mem_of_mem_stripLeadingSign {c : Char} {l : List Char}
    (h : c ∈ stripLeadingSign l) : c ∈ l := by
  rcases l with _ | ⟨a, rest⟩
  · exact h
  · revert h
    show c ∈ (if a = '-' ∨ a = '+' then rest else a :: rest) → _
    split_ifs with hs
    · exact fun h => List.mem_cons_of_mem a h
    · exact fun h => h

theorem noColon_total (D : List Char) (hd : ∀ c ∈ D, isDigitC c = true)
    (hlen : D.length ≤ 4) :
    (hhmmCarry (hhmmNoColonPair D)).1 * 60 + (hhmmCarry (hhmmNoColonPair D)).2 =
      (specPositionalInterp D : Int) := by
  unfold hhmmNoColonPair specPositionalInterp
  by_cases h4 : D.length = 4
  · rw [if_pos h4, if_pos h4]
    have ht : ∀ c ∈ D.take 2, isDigitC c = true :=
      fun c hc => hd c ((List.take_sublist 2 D).mem hc)
    have hr : ∀ c ∈ D.drop 2, isDigitC c = true :=
      fun c hc => hd c ((List.drop_sublist 2 D).mem hc)
    rw [parseOr0_digits _ ht (by rw [← List.length_pos]; simp [h4]),
        parseOr0_digits _ hr (by rw [← List.length_pos]; simp [h4])]
    exact carry_total_cast _ _
  · rw [if_neg h4, if_neg h4]
    by_cases h3 : D.length = 3
    · rw [if_pos h3, if_pos h3]
      have ht : ∀ c ∈ D.take 1, isDigitC c = true :=
        fun c hc => hd c ((List.take_sublist 1 D).mem hc)
      have hr : ∀ c ∈ D.drop 1, isDigitC c = true :=
        fun c hc => hd c ((List.drop_sublist 1 D).mem hc)
      rw [parseOr0_digits _ ht (by rw [← List.length_pos]; simp [h3]),
          parseOr0_digits _ hr (by rw [← List.length_pos]; simp [h3])]
      exact carry_total_cast _ _
    · rw [if_neg h3, if_neg h3]
      by_cases h2 : D.length = 2
      · rw [if_pos h2]
        have hne : D ≠ [] := by rw [← List.length_pos]; omega
        rw [parseOr0_digits D hd hne]
        have hlt : ofDigits D < 100 := ofDigits_short_lt_100 hd (by omega)
        have hcode : ((0 : Int), (ofDigits D : Int)) =
            (((0 : Nat) : Int), (ofDigits D : Int)) := by norm_num
        rw [hcode, carry_total_cast 0 (ofDigits D)]
        by_cases h60 : ofDigits D > 60
        · rw [if_pos h60]
          congr 1
          rw [specCombine_eq, specCombine_eq]
          omega
        · rw [if_neg h60]
      · rw [if_neg h2]
        by_cases h0 : D.length > 0
        · rw [if_pos h0]
          have h1 : D.length = 1 := by omega
          have hne : D ≠ [] := by rw [← List.length_pos]; omega
          rw [parseOr0_digits D hd hne]
          have hle : ofDigits D ≤ 9 := ofDigits_single_le_9 hd h1
          rw [if_neg (show ¬((ofDigits D : Int) > 60) by omega)]
          rw [if_neg (show ¬(ofDigits D > 60) by omega)]
          have hcode : ((0 : Int), (ofDigits D : Int)) =
              (((0 : Nat) : Int), (ofDigits D : Int)) := by norm_num
          rw [hcode, carry_total_cast 0 (ofDigits D)]
        · rw [if_neg h0]
          have hnil : D = [] := by
            rcases D with _ | _
            · rfl
            · simp at h0
          subst hnil
          decide

theorem bulkStep_incomplete (fail : Nat → Bool) (i : Nat) (s : BulkState)
    (r : BulkRow)
    (h : r.fullName = "" ∨ r.registrationNumber = "" ∨ r.position = "") :
    bulkStep fail i s r = { s with duplicates := s.duplicates ++
      [{ row := i + 1,
         fullName := if r.fullName = "" then "Desconhecido" else r.fullName,
         registrationNumber :=
           if r.registrationNumber = "" then "Vazio" else r.registrationNumber,
         reason := "Dados incompletos" }] } := by
  unfold bulkStep
  rw [if_pos h]

theorem bulkStep_dup (fail : Nat → Bool) (i : Nat) (s : BulkState)
    (r : BulkRow) (h1 : r.fullName ≠ "") (h2 : r.registrationNumber ≠ "")
    (h3 : r.position ≠ "")
    (h4 : sanitizeRegistration r.registrationNumber ∈ s.known) :
    bulkStep fail i s r = { s with duplicates := s.duplicates ++
      [{ row := i + 1, fullName := r.fullName,
         registrationNumber := r.registrationNumber,
         reason := "Matrícula já existe" }] } := by
  unfold bulkStep
  rw [if_neg (by push_neg; exact ⟨h1, h2, h3⟩)]
  simp only [if_pos h4]

theorem bulkStep_fails (fail : Nat → Bool) (i : Nat) (s : BulkState)
    (r : BulkRow) (h1 : r.fullName ≠ "") (h2 : r.registrationNumber ≠ "")
    (h3 : r.position ≠ "")
    (h4 : sanitizeRegistration r.registrationNumber ∉ s.known)
    (h5 : fail i = true) :
    bulkStep fail i s r = { s with duplicates := s.duplicates ++
      [{ row := i + 1, fullName := r.fullName,
         registrationNumber := r.registrationNumber,
         reason := "Erro ao criar" }] } := by
  unfold bulkStep
  rw [if_neg (by push_neg; exact ⟨h1, h2, h3⟩)]
  simp only [if_neg h4, if_pos h5]

theorem bulkStep_ok (fail : Nat → Bool) (i : Nat) (s : BulkState)
    (r : BulkRow) (h1 : r.fullName ≠ "") (h2 : r.registrationNumber ≠ "")
    (h3 : r.position ≠ "")
    (h4 : sanitizeRegistration r.registrationNumber ∉ s.known)
    (h5 : fail i = false) :
    bulkStep fail i s r =
      { s with known := sanitizeRegistration r.registrationNumber :: s.known,
               created := s.created + 1 } := by
  unfold bulkStep
  rw [if_neg (by push_neg; exact ⟨h1, h2, h3⟩)]
  simp only [if_neg h4, h5, Bool.false_eq_true, if_false]

theorem bulkStep_count (fail : Nat → Bool) (i : Nat) (s : BulkState)
    (r : BulkRow) :
    (bulkStep fail i s r).created + (bulkStep fail i s r).duplicates.length =
      s.created + s.duplicates.length + 1 := by
  unfold bulkStep
  split_ifs <;> simp [List.length_append] <;> omega

/-- Every step either appends exactly one report entry (with row number
`i + 1`, leaving `created` unchanged) or increments `created` (leaving the
report unchanged). -/
theorem bulkStep_dups_cases (fail : Nat → Bool) (i : Nat) (s : BulkState)
    (r : BulkRow) :
    (bulkStep fail i s r).duplicates = s.duplicates ∨
    ∃ e, (bulkStep fail i s r).duplicates = s.duplicates ++ [e] ∧
      e.row = i + 1 := by
  unfold bulkStep
  split_ifs
  all_goals try (left; rfl)
  all_goals right; exact ⟨_, rfl, rfl⟩

theorem bulkRun_count (fail : Nat → Bool) :
    ∀ (rows : List BulkRow) (i : Nat) (s : BulkState),
    (bulkRun fail i s rows).created + (bulkRun fail i s rows).duplicates.length =
      s.created + s.duplicates.length + rows.length := by
  intro rows
  induction rows with
  | nil => intro i s; simp [bulkRun]
  | cons r rest ih =>
    intro i s
    show (bulkRun fail (i + 1) (bulkStep fail i s r) rest).created +
        (bulkRun fail (i + 1) (bulkStep fail i s r) rest).duplicates.length = _
    rw [ih (i + 1) (bulkStep fail i s r), bulkStep_count fail i s r]
    simp [List.length_cons]
    omega

theorem bulkRun_order (fail : Nat → Bool) :
    ∀ (rows : List BulkRow) (i : Nat) (s : BulkState),
    List.Pairwise (fun a b => a < b) (s.duplicates.map (fun e => e.row)) →
    (∀ e ∈ s.duplicates, 1 ≤ e.row ∧ e.row ≤ i) →
    List.Pairwise (fun a b => a < b)
        ((bulkRun fail i s rows).duplicates.map (fun e => e.row)) ∧
    ∀ e ∈ (bulkRun fail i s rows).duplicates,
      1 ≤ e.row ∧ e.row ≤ i + rows.length := by
  intro rows
  induction rows with
  | nil =>
    intro i s h1 h2
    exact ⟨h1, by simpa using h2⟩
  | cons r rest ih =>
    intro i s h1 h2
    have step := bulkStep_dups_cases fail i s r
    have hrun : bulkRun fail i s (r :: rest) =
        bulkRun fail (i + 1) (bulkStep fail i s r) rest := rfl
    rw [hrun]
    have hinv1 : List.Pairwise (fun a b => a < b)
        ((bulkStep fail i s r).duplicates.map (fun e => e.row)) := by
      rcases step with hsame | ⟨e, happ, hrow⟩
      · rw [hsame]; exact h1
      · rw [happ, List.map_append, List.pairwise_append]
        refine ⟨h1, by simp, ?_⟩
        intro a ha b hb
        rcases List.mem_map.mp ha with ⟨e', he', rfl⟩
        simp only [List.map_cons, List.map_nil, List.mem_singleton] at hb
        subst hb
        rw [hrow]
        have := (h2 e' he').2
        omega
    have hinv2 : ∀ e ∈ (bulkStep fail i s r).duplicates,
        1 ≤ e.row ∧ e.row ≤ i + 1 := by
      rcases step with hsame | ⟨e, happ, hrow⟩
      · rw [hsame]
        intro e he
        have := h2 e he
        omega
      · rw [happ]
        intro e' he'
        rcases List.mem_append.mp he' with h | h
        · have := h2 e' h; omega
        · simp only [List.mem_singleton] at h
          subst h
          omega
    have := ih (i + 1) (bulkStep fail i s r) hinv1 hinv2
    refine ⟨this.1, ?_⟩
    intro e he
    have := this.2 e he
    simp only [List.length_cons] at *
    omega

/-! ## Claim theorems -/

/-- The claim's theorem, C8: the sanitizer removes every space, period and
hyphen, and it is idempotent. -/
theorem claim_C8 (s : String) :
    ((' ' ∉ (sanitizeRegistration s).data) ∧
     ('.' ∉ (sanitizeRegistration s).data) ∧
     ('-' ∉ (sanitizeRegistration s).data)) ∧
    sanitizeRegistration (sanitizeRegistration s) = sanitizeRegistration s := by
  have hdata : ∀ t : String, (sanitizeRegistration t).data = sanitizeChars t.data := by
    intro t; rfl
  have hmem : ∀ c, isStripped c = true → c ∉ (sanitizeRegistration s).data := by
    intro c hstr hc
    rw [hdata, sanitizeChars_eq_filter] at hc
    have := (List.mem_filter.mp hc).2
    rw [hstr] at this
    simp at this
  refine ⟨⟨hmem ' ' (by decide), hmem '.' (by decide), hmem '-' (by decide)⟩, ?_⟩
  apply String.ext
  rw [hdata, hdata, sanitizeChars_eq_filter, sanitizeChars_eq_filter]
  rw [List.filter_filter]
  apply List.filter_congr
  intro c hc
  cases h : isStripped c <;> simp [h]

theorem claim_C8_witness :
    sanitizeRegistration (sanitizeRegistration "111-22") =
      sanitizeRegistration "111-22" :=
  (claim_C8 "111-22").2

/-- Claim C1: for both `createVacation` and `createLeave` of `MemStorage`,
the stored record's status is `"approved"` whenever the (time-truncated)
start date is on or before the (time-truncated) current date, and the
caller-submitted status otherwise; the record under the fresh id in the new
state is exactly the returned record. -/
theorem claim_C1 (today : Int) (id : String) (v : InsertVacation)
    (st : MemState) :
    ((memCreateVacation today id v st).1.status =
        if v.startDate ≤ today then "approved" else v.status) ∧
    lookupA id (memCreateVacation today id v st).2.vacations =
        some (memCreateVacation today id v st).1 ∧
    ((memCreateLeave today id v st).1.status =
        if v.startDate ≤ today then "approved" else v.status) ∧
    lookupA id (memCreateLeave today id v st).2.leaves =
        some (memCreateLeave today id v st).1 :=
  ⟨rfl, lookupA_setA_self _ _ _, rfl, lookupA_setA_self _ _ _⟩

theorem claim_C1_witness :
    (memCreateVacation 0 "i1" insPending emptyMem).1.status =
      (if insPending.startDate ≤ 0 then "approved" else insPending.status) :=
  (claim_C1 0 "i1" insPending emptyMem).1

/-- Counterexample to claim C2 as stated: for a period whose start date
equals the current date and submitted status `"pending"`,
`SqliteStorage.createVacation` stores `"pending"` while
`MemStorage.createVacation` stores `"approved"`. -/
theorem claim_C2_cex :
    (sqliteCreateVacation "i1" insPending).status ≠
      (memCreateVacation 0 "i1" insPending emptyMem).1.status := by
  decide

/-- Claim C2 as amended: the two storage implementations do NOT share the
creation business logic — `SqliteStorage.createVacation`/`createLeave` store
the caller-submitted status unchanged, without the auto-approve rule of
`MemStorage`; the created statuses agree exactly when the start date is
after the current date or the submitted status is already `"approved"`. -/
theorem claim_C2 (today : Int) (id : String) (v : InsertVacation)
    (st : MemState) :
    ((sqliteCreateVacation id v).status =
        (memCreateVacation today id v st).1.status ↔
      (today < v.startDate ∨ v.status = "approved")) ∧
    ((sqliteCreateLeave id v).status =
        (memCreateLeave today id v st).1.status ↔
      (today < v.startDate ∨ v.status = "approved")) := by
  have key : (v.status = memCreateStatus today v) ↔
      (today < v.startDate ∨ v.status = "approved") := by
    unfold memCreateStatus
    by_cases hle : v.startDate ≤ today
    · rw [if_pos hle]
      constructor
      · exact fun h => Or.inr h
      · rintro (h | h)
        · omega
        · exact h
    · rw [if_neg hle]
      constructor
      · exact fun _ => Or.inl (by omega)
      · exact fun _ => rfl
  exact ⟨key, key⟩

theorem claim_C2_witness :
    (sqliteCreateVacation "i2" insFuture).status =
      (memCreateVacation 0 "i2" insFuture emptyMem).1.status :=
  ((claim_C2 0 "i2" insFuture emptyMem).1).mpr (Or.inl (by decide))

/-- Claim C10: `MemStorage.updateVacation` is a frame-respecting partial
update — an absent id yields `undefined` and an unchanged store; for a
present id the patch overwrites exactly the supplied fields, the id is
preserved, the status is taken from the patch or the old record (the
auto-approve rule is not re-applied: no date is consulted), and every other
record and every other table is untouched. -/
theorem claim_C10 (id : String) (d : VacationPatch) (st : MemState) :
    (lookupA id st.vacations = none →
      (memUpdateVacation id d st).1 = none ∧
      (memUpdateVacation id d st).2 = st) ∧
    (∀ v, lookupA id st.vacations = some v →
      (memUpdateVacation id d st).1 = some (applyPatch v d) ∧
      (applyPatch v d).id = v.id ∧
      (applyPatch v d).status = d.status.getD v.status ∧
      (d.employeeId = none → (applyPatch v d).employeeId = v.employeeId) ∧
      (d.startDate = none → (applyPatch v d).startDate = v.startDate) ∧
      (d.endDate = none → (applyPatch v d).endDate = v.endDate) ∧
      (d.status = none → (applyPatch v d).status = v.status) ∧
      (d.notes = none → (applyPatch v d).notes = v.notes) ∧
      lookupA id (memUpdateVacation id d st).2.vacations =
        some (applyPatch v d) ∧
      (∀ k, k ≠ id → lookupA k (memUpdateVacation id d st).2.vacations =
        lookupA k st.vacations) ∧
      (memUpdateVacation id d st).2.employees = st.employees ∧
      (memUpdateVacation id d st).2.hoursBank = st.hoursBank ∧
      (memUpdateVacation id d st).2.leaves = st.leaves ∧
      (memUpdateVacation id d st).2.paidDaysOff = st.paidDaysOff) := by
  constructor
  · intro h
    unfold memUpdateVacation
    rw [h]
    exact ⟨rfl, rfl⟩
  · intro v h
    unfold memUpdateVacation
    rw [h]
    refine ⟨rfl, rfl, rfl, ?_, ?_, ?_, ?_, ?_, ?_, ?_, rfl, rfl, rfl, rfl⟩
    · intro hn; simp [applyPatch, hn]
    · intro hn; simp [applyPatch, hn]
    · intro hn; simp [applyPatch, hn]
    · intro hn; simp [applyPatch, hn]
    · intro hn; simp [applyPatch, hn]
    · exact lookupA_setA_self _ _ _
    · intro k hk
      exact lookupA_setA_ne _ _ _ _ hk

theorem claim_C10_witness :
    (memUpdateVacation "v1" { status := some "approved" } stW).1 =
      some (applyPatch vacW { status := some "approved" }) ∧
    (memUpdateVacation "zz" { status := some "approved" } stW).2 = stW :=
  ⟨((claim_C10 "v1" { status := some "approved" } stW).2 vacW (by decide)).1,
   ((claim_C10 "zz" { status := some "approved" } stW).1 (by decide)).2⟩

/-- Claim C6: deleting a present employee returns `true` and removes every
dependent hours-bank entry, vacation period, leave period and paid-day-off
of that employee: all subsequent per-employee fetches are empty and the
employee itself is gone. -/
theorem claim_C6 (id : String) (st : MemState)
    (h : containsA id st.employees = true) :
    (memDeleteEmployee id st).1 = true ∧
    memGetEmployee id (memDeleteEmployee id st).2 = none ∧
    memGetHoursBankByEmployee id (memDeleteEmployee id st).2 = [] ∧
    memGetVacationsByEmployee id (memDeleteEmployee id st).2 = [] ∧
    memGetLeavesByEmployee id (memDeleteEmployee id st).2 = [] ∧
    memGetPaidDaysOffByEmployee id (memDeleteEmployee id st).2 = [] := by
  unfold memDeleteEmployee
  simp only [h, if_true]
  refine ⟨trivial, ?_, ?_, ?_, ?_, ?_⟩
  · exact lookupA_deleteA id st.employees
  · exact filter_map_filtered (fun r => r.employeeId) id st.hoursBank
  · exact filter_map_filtered (fun r => r.employeeId) id st.vacations
  · exact filter_map_filtered (fun r => r.employeeId) id st.leaves
  · exact filter_map_filtered (fun r => r.employeeId) id st.paidDaysOff

/-- Claim C4: a row whose sanitized registration is already in the running
known-keys set is reported as a duplicate with the code's
registration-already-exists reason and does not increment `created`, while
an accepted row inserts its sanitized key into the running set; on the batch
`[("A","111-22","Dev"), ("B","11122","QA")]` the second row collides with
the first after sanitization and `created = 1`. -/
theorem claim_C4 :
    (∀ (fail : Nat → Bool) (i : Nat) (s : BulkState) (r : BulkRow)
        (rest : List BulkRow),
      r.fullName ≠ "" → r.registrationNumber ≠ "" → r.position ≠ "" →
      sanitizeRegistration r.registrationNumber ∉ s.known → fail i = false →
      bulkRun fail i s (r :: rest) =
        bulkRun fail (i + 1)
          { s with known := sanitizeRegistration r.registrationNumber :: s.known,
                   created := s.created + 1 } rest) ∧
    (∀ (fail : Nat → Bool) (i : Nat) (s : BulkState) (r : BulkRow)
        (rest : List BulkRow),
      r.fullName ≠ "" → r.registrationNumber ≠ "" → r.position ≠ "" →
      sanitizeRegistration r.registrationNumber ∈ s.known →
      bulkRun fail i s (r :: rest) =
        bulkRun fail (i + 1)
          { s with duplicates := s.duplicates ++
              [{ row := i + 1, fullName := r.fullName,
                 registrationNumber := r.registrationNumber,
                 reason := "Matrícula já existe" }] } rest) ∧
    importBulk [] (fun _ => false)
        [⟨"A", "111-22", "Dev"⟩, ⟨"B", "11122", "QA"⟩] =
      { totalRows := 2, created := 1,
        duplicates := [⟨2, "B", "11122", "Matrícula já existe"⟩] } := by
  refine ⟨?_, ?_, by decide⟩
  · intro fail i s r rest h1 h2 h3 h4 h5
    show bulkRun fail (i + 1) (bulkStep fail i s r) rest = _
    rw [bulkStep_ok fail i s r h1 h2 h3 h4 h5]
  · intro fail i s r rest h1 h2 h3 h4
    show bulkRun fail (i + 1) (bulkStep fail i s r) rest = _
    rw [bulkStep_dup fail i s r h1 h2 h3 h4]

theorem claim_C4_witness :
    bulkRun (fun _ => false) 1
        { known := ["11122"], created := 1, duplicates := [] }
        [⟨"B", "11122", "QA"⟩] =
      bulkRun (fun _ => false) 2
        { known := ["11122"], created := 1,
          duplicates := [⟨2, "B", "11122", "Matrícula já existe"⟩] } [] :=
  claim_C4.2.1 (fun _ => false) 1
    { known := ["11122"], created := 1, duplicates := [] }
    ⟨"B", "11122", "QA"⟩ [] (by decide) (by decide) (by decide) (by decide)

/-- Claim C5: a storage failure while creating one row (`fail i = true`)
never aborts the batch — the row is recorded with the code's creation-error
reason, `created` is not incremented, and the loop continues on the
remaining rows; the handler always returns a report covering every row. -/
theorem claim_C5 :
    (∀ (fail : Nat → Bool) (i : Nat) (s : BulkState) (r : BulkRow)
        (rest : List BulkRow),
      r.fullName ≠ "" → r.registrationNumber ≠ "" → r.position ≠ "" →
      sanitizeRegistration r.registrationNumber ∉ s.known → fail i = true →
      bulkRun fail i s (r :: rest) =
        bulkRun fail (i + 1)
          { s with duplicates := s.duplicates ++
              [{ row := i + 1, fullName := r.fullName,
                 registrationNumber := r.registrationNumber,
                 reason := "Erro ao criar" }] } rest) ∧
    (∀ (existing : List Employee) (fail : Nat → Bool) (rows : List BulkRow),
      (importBulk existing fail rows).totalRows = rows.length) := by
  constructor
  · intro fail i s r rest h1 h2 h3 h4 h5
    show bulkRun fail (i + 1) (bulkStep fail i s r) rest = _
    rw [bulkStep_fails fail i s r h1 h2 h3 h4 h5]
  · intro existing fail rows
    rfl

theorem claim_C5_witness :
    bulkRun (fun _ => true) 0
        { known := [], created := 0, duplicates := [] }
        [⟨"A", "111-22", "Dev"⟩, ⟨"B", "222", "QA"⟩] =
      bulkRun (fun _ => true) 1
        { known := [], created := 0,
          duplicates := [⟨1, "A", "111-22", "Erro ao criar"⟩] }
        [⟨"B", "222", "QA"⟩] :=
  claim_C5.1 (fun _ => true) 0
    { known := [], created := 0, duplicates := [] }
    ⟨"A", "111-22", "Dev"⟩ [⟨"B", "222", "QA"⟩]
    (by decide) (by decide) (by decide) (by decide) (by decide)

/-- Claim C9: the bulk-import report is exhaustive and exclusive — `created`
plus the number of report entries equals `totalRows`, the report entries
carry strictly increasing row numbers (input order), and every row number is
1-based and at most `totalRows`. -/
theorem claim_C9 (existing : List Employee) (fail : Nat → Bool)
    (rows : List BulkRow) :
    (importBulk existing fail rows).created +
        (importBulk existing fail rows).duplicates.length =
      (importBulk existing fail rows).totalRows ∧
    List.Pairwise (fun a b => a < b)
      ((importBulk existing fail rows).duplicates.map (fun e => e.row)) ∧
    ∀ e ∈ (importBulk existing fail rows).duplicates,
      1 ≤ e.row ∧ e.row ≤ (importBulk existing fail rows).totalRows := by
  have hcount := bulkRun_count fail rows 0
    { known := existing.map (fun e => sanitizeRegistration e.registrationNumber),
      created := 0, duplicates := [] }
  have horder := bulkRun_order fail rows 0
    { known := existing.map (fun e => sanitizeRegistration e.registrationNumber),
      created := 0, duplicates := [] }
    (by simp) (by simp)
  refine ⟨?_, horder.1, ?_⟩
  · simpa using hcount
  · intro e he
    have := horder.2 e he
    simpa using this

theorem claim_C9_witness :
    (importBulk [] (fun _ => false)
        [⟨"A", "111-22", "Dev"⟩, ⟨"B", "11122", "QA"⟩]).created +
      (importBulk [] (fun _ => false)
        [⟨"A", "111-22", "Dev"⟩, ⟨"B", "11122", "QA"⟩]).duplicates.length =
      (importBulk [] (fun _ => false)
        [⟨"A", "111-22", "Dev"⟩, ⟨"B", "11122", "QA"⟩]).totalRows :=
  (claim_C9 [] (fun _ => false)
    [⟨"A", "111-22", "Dev"⟩, ⟨"B", "11122", "QA"⟩]).1

/-- Claim C7: on a colonless input whose digit string has at most four
digits, the tolerant parser equals the positional interpretation described
by the spec (4 digits as HHMM, 3 as HMM, at most 2 as MM with the
divmod-by-100 exception above 60), with the minute component normalised into
`[0, 60)` by carry and the sign applied at the end. -/
theorem claim_C7 (s : String) (h1 : ':' ∉ s.data)
    (h2 : (s.data.filter isDigitC).length ≤ 4) :
    hhmmToMinutes s =
      if hhmmIsNegative s.data then
        -(specPositionalInterp (s.data.filter isDigitC) : Int)
      else (specPositionalInterp (s.data.filter isDigitC) : Int) := by
  show hhmmToMinutesChars s.data = _
  by_cases hsd : s.data = []
  · rw [hsd]
    decide
  · have hD : ∀ c ∈ s.data.filter isDigitC, isDigitC c = true :=
      fun c hc => (List.mem_filter.mp hc).2
    have hnc : ':' ∉ trimJS (stripLeadingSign s.data) :=
      fun hm => h1 (mem_of_mem_stripLeadingSign (mem_of_mem_trimJS hm))
    have hfil : (trimJS (stripLeadingSign s.data)).filter isDigitC =
        s.data.filter isDigitC := by
      rw [trimJS_filter_digits, strip_filter_digits]
    have hpair : hhmmRawPair (trimJS (stripLeadingSign s.data)) =
        hhmmNoColonPair (s.data.filter isDigitC) := by
      unfold hhmmRawPair
      rw [if_neg hnc, hfil]
    have htot : hhmmTotal (trimJS (stripLeadingSign s.data)) =
        (specPositionalInterp (s.data.filter isDigitC) : Int) := by
      unfold hhmmTotal
      rw [hpair]
      exact noColon_total _ hD h2
    unfold hhmmToMinutesChars
    rw [if_neg hsd, htot]

theorem claim_C7_witness :
    ':' ∉ "0315".data ∧
    hhmmToMinutes "0315" =
      if hhmmIsNegative "0315".data then
        -(specPositionalInterp ("0315".data.filter isDigitC) : Int)
      else (specPositionalInterp ("0315".data.filter isDigitC) : Int) :=
  ⟨by decide, claim_C7 "0315" (by decide) (by decide)⟩

/-- Claim C3: parsing the canonically formatted text of any signed minute
count round-trips to the same integer. -/
theorem claim_C3 (m : Int) : hhmmToMinutes (minutesToHHMM m) = m := by
  have H := natToDigits_spec (m.natAbs / 60)
  have M := natToDigits_spec (m.natAbs % 60)
  set hl := pad2 (natToDigits (m.natAbs / 60)) with hhl
  set ml := pad2 (natToDigits (m.natAbs % 60)) with hml
  have hdl : ∀ c ∈ hl, isDigitC c = true := pad2_digits H.1
  have hdm : ∀ c ∈ ml, isDigitC c = true := pad2_digits M.1
  have hnl : hl ≠ [] := pad2_ne_nil H.2.2
  have hnm : ml ≠ [] := pad2_ne_nil M.2.2
  have hofl : ofDigits hl = m.natAbs / 60 := by rw [hhl, pad2_ofDigits, H.2.1]
  have hofm : ofDigits ml = m.natAbs % 60 := by rw [hml, pad2_ofDigits, M.2.1]
  have hmlt : ofDigits ml < 60 := by rw [hofm]; exact Nat.mod_lt _ (by omega)
  have htrim := trimJS_hhmm hl ml hdl hdm
  have htot : hhmmTotal (hl ++ ':' :: ml) = (m.natAbs : Int) := by
    rw [hhmmTotal_colon hl ml hdl hdm hnl hnm hmlt, hofl, hofm]
    have := Nat.div_add_mod m.natAbs 60
    push_cast
    omega
  obtain ⟨c0, t0, hsh⟩ : ∃ c0 t0, hl = c0 :: t0 := by
    rcases hl with _ | ⟨c0, t0⟩
    · exact absurd rfl hnl
    · exact ⟨c0, t0, rfl⟩
  have hc0 : isDigitC c0 = true := hdl c0 (by rw [hsh]; exact List.mem_cons_self _ _)
  have hc0m : c0 ≠ '-' := digit_ne_of_toNat hc0 '-' (by decide)
  have hc0p : c0 ≠ '+' := digit_ne_of_toNat hc0 '+' (by decide)
  have hlshape : hl ++ ':' :: ml = c0 :: (t0 ++ ':' :: ml) := by rw [hsh]; rfl
  show hhmmToMinutesChars (minutesToHHMMChars m) = m
  by_cases hneg : m < 0
  · have hchars : minutesToHHMMChars m = '-' :: (hl ++ ':' :: ml) := by
      unfold minutesToHHMMChars
      rw [if_pos hneg]
      rfl
    rw [hchars]
    unfold hhmmToMinutesChars
    rw [if_neg (by simp)]
    have hn : hhmmIsNegative ('-' :: (hl ++ ':' :: ml)) = true := by
      simp [hhmmIsNegative, startsWithChar]
    rw [hn]
    simp only [if_true]
    have hstrip : stripLeadingSign ('-' :: (hl ++ ':' :: ml)) = hl ++ ':' :: ml := rfl
    rw [hstrip, htrim, htot]
    omega
  · have hchars : minutesToHHMMChars m = hl ++ ':' :: ml := by
      unfold minutesToHHMMChars
      rw [if_neg hneg]
      rfl
    rw [hchars]
    unfold hhmmToMinutesChars
    rw [if_neg (by rw [hlshape]; simp)]
    have hn : hhmmIsNegative (hl ++ ':' :: ml) = false := by
      rw [hlshape]
      simp [hhmmIsNegative, startsWithChar, hc0m, hc0p]
    rw [hn]
    simp only [Bool.false_eq_true, if_false]
    have hstrip : stripLeadingSign (hl ++ ':' :: ml) = hl ++ ':' :: ml := by
      rw [hlshape]
      show (if c0 = '-' ∨ c0 = '+' then t0 ++ ':' :: ml
        else c0 :: (t0 ++ ':' :: ml)) = c0 :: (t0 ++ ':' :: ml)
      rw [if_neg (by push_neg; exact ⟨hc0m, hc0p⟩)]
    rw [hstrip, htrim, htot]
    omega

theorem claim_C3_witness : hhmmToMinutes (minutesToHHMM 195) = 195 :=
  claim_C3 195

theorem claim_C6_witness :
    (memDeleteEmployee "e1" stDel).1 = true ∧
    memGetHoursBankByEmployee "e1" (memDeleteEmployee "e1" stDel).2 = [] :=
  ⟨(claim_C6 "e1" stDel (by decide)).1,
   (claim_C6 "e1" stDel (by decide)).2.2.1⟩

end RhManager
